import Mathlib

/-!
Verification of the aim/targeting/combat core of the Pistol-Shot-AR
application (a browser light-gun game driven by hand-gesture tracking).

The embedding translates the game-loop code of the main component
(`src/unnamed/part_000`) together with the constants of `src/constants.ts`
into pure Lean functions over exact rationals:

* scalar values that the source manipulates as JS numbers are modelled as
  rationals;
* the external renderer operations that are irreducibly transcendental
  (vector normalisation via a square root, the angle computation
  `Vector3.angleTo` used by the aim assist, `Math.sin`, `Math.cos` and
  `Math.random`) are passed in as explicit parameters: randomness becomes
  universally quantified input data, and the transcendental functions of
  the THREE.js library become function parameters of the step functions;
* the mutable refs of the component become explicit state records that the
  per-frame and per-detection-tick step functions transform;
* the asynchronous removal of a hit target (a 100 ms `setTimeout`) becomes
  a list of pending removal identifiers together with a separate
  `timeoutFire` transition, so a scheduled removal fires exactly once at a
  nondeterministic later point;
* target identifiers, produced by `Math.random().toString(36)` in the
  source, are modelled by a fresh-counter scheme (the source relies on the
  identifiers being pairwise distinct).

A crucial faithfulness point: the `onResults` callback (and hence the
`handleShoot` closure it calls) is registered exactly once, inside a
mount-only effect (`useEffect(..., [])`).  The `gameState` variable those
closures capture is therefore the state snapshot of the first render for
the whole lifetime of the program, while the `setGameState(prev => ...)`
functional updates always act on the current state.  `handleShoot`
consequently takes two game-state arguments: the captured snapshot
(always `initialGState` in a run of the program) used where the source
reads `gameState.…`, and the current state used where the source updates
through `prev`.
-/

/-! ### Constants (`src/constants.ts`) -/

/-- ENEMY_COUNT from constants.ts. -/
def ENEMY_COUNT : ℕ := 4

/-- SPAWN_RADIUS from constants.ts. -/
def SPAWN_RADIUS : ℚ := 15

/-- SPEED_MIN from constants.ts (0.05). -/
def SPEED_MIN : ℚ := 1/20

/-- SPEED_MAX from constants.ts (0.12). -/
def SPEED_MAX : ℚ := 3/25

/-- AIM_ASSIST_RADIUS from constants.ts (1.5). -/
def AIM_ASSIST_RADIUS : ℚ := 3/2

/-- AIM_ASSIST_STRENGTH from constants.ts (0.4). -/
def AIM_ASSIST_STRENGTH : ℚ := 2/5

/-- DETECTION_FREQ_MS from constants.ts. -/
def DETECTION_FREQ_MS : ℕ := 33

/-- TRIGGER_THRESHOLD from constants.ts (0.06). -/
def TRIGGER_THRESHOLD : ℚ := 3/50

/-! ### Vectors and landmark points -/

/-- A 3D vector with exact rational components, standing for THREE.Vector3. -/
structure Vec3 where
  x : ℚ
  y : ℚ
  z : ℚ
deriving DecidableEq, Repr

/-- Componentwise vector addition (THREE.Vector3.add). -/
def Vec3.add (a b : Vec3) : Vec3 := ⟨a.x + b.x, a.y + b.y, a.z + b.z⟩

/-- Componentwise vector subtraction (THREE.Vector3.sub). -/
def Vec3.sub (a b : Vec3) : Vec3 := ⟨a.x - b.x, a.y - b.y, a.z - b.z⟩

/-- Scalar multiplication (THREE.Vector3.multiplyScalar). -/
def Vec3.scale (t : ℚ) (a : Vec3) : Vec3 := ⟨t * a.x, t * a.y, t * a.z⟩

/-- Linear interpolation toward `b` by fraction `t`
(THREE.Vector3.lerp: this := this + (v - this) * alpha). -/
def Vec3.lerp (a b : Vec3) (t : ℚ) : Vec3 := a.add ((b.sub a).scale t)

/-- Squared Euclidean norm.  The source compares `position.length() > 30`;
since both sides are nonnegative this is equivalent to comparing the
squared norm against 900, which keeps the embedding inside the rationals. -/
def lenSqQ (a : Vec3) : ℚ := a.x ^ 2 + a.y ^ 2 + a.z ^ 2

/-- A 2D landmark point in normalized image coordinates (the consumer reads
only the x and y fields of a MediaPipe landmark). -/
structure Pt2 where
  x : ℚ
  y : ℚ
deriving DecidableEq, Repr

/-! ### Targets and the spawner -/

/-- Target type chosen at spawn (`spawnEnemy`). -/
inductive EnemyType where
  | normal
  | phantom
  | racer
  | titan
deriving DecidableEq, Repr

/-- Per-type configuration record of `spawnEnemy`. -/
structure EConfig where
  scale : ℚ
  speedMult : ℚ
  points : ℕ
deriving DecidableEq, Repr

/-- The {scale, speed multiplier, points} table of `spawnEnemy`
(colors are presentation only and elided). -/
def configOf : EnemyType → EConfig
  | .normal => ⟨1, 1, 100⟩
  | .phantom => ⟨1, 13/10, 500⟩
  | .racer => ⟨3/5, 9/5, 250⟩
  | .titan => ⟨9/5, 3/5, 150⟩

/-- Type selection by cumulative probability bands in `spawnEnemy`:
rand < 0.1 phantom, rand < 0.25 racer, rand < 0.45 titan, else normal. -/
def chooseType (rand : ℚ) : EnemyType :=
  if rand < 1/10 then .phantom
  else if rand < 1/4 then .racer
  else if rand < 9/20 then .titan
  else .normal

/-- A target (the Enemy record of types.ts).  The mesh is represented by the
state the simulation reads and writes: position, rotation and scale.
`id` is a natural number drawn from a fresh counter (the source makes ids
with `Math.random().toString(36)` and relies on their distinctness).
`spawnTime` is unused by the core logic and elided. -/
structure Enemy where
  id : ℕ
  pos : Vec3
  vel : Vec3
  rotx : ℚ
  roty : ℚ
  scale : ℚ
  isDying : Bool
  points : ℕ
  etype : EnemyType
deriving DecidableEq, Repr

instance : Inhabited Enemy :=
  ⟨⟨0, ⟨0, 0, 0⟩, ⟨0, 0, 0⟩, 0, 0, 0, false, 0, .normal⟩⟩

/-- The random draws consumed by one call of `spawnEnemy`, plus the values
of the two transcendental library operations it uses.  `c` and `s` stand
for `Math.cos(angle)` and `Math.sin(angle)` of the random spawn angle, and
`dir` stands for the floating-point result of
`new Vector3(0,0,0).sub(position).normalize()`. -/
structure SpawnParams where
  rand : ℚ
  r2 : ℚ
  r3 : ℚ
  c : ℚ
  s : ℚ
  dir : Vec3
deriving DecidableEq, Repr

/-- Constraints that every draw produced by the source satisfies:
`Math.random()` is in [0,1) and (cos, sin) lies on the unit circle. -/
def ValidSpawn (p : SpawnParams) : Prop :=
  0 ≤ p.rand ∧ p.rand < 1 ∧ 0 ≤ p.r2 ∧ p.r2 < 1 ∧ 0 ≤ p.r3 ∧ p.r3 < 1 ∧
    p.c ^ 2 + p.s ^ 2 = 1

instance (p : SpawnParams) : Decidable (ValidSpawn p) := by
  unfold ValidSpawn; infer_instance

/-- spawnEnemy of the source: position on the horizontal circle of radius
SPAWN_RADIUS at the random angle, with vertical offset (r2 - 0.5) * 10;
velocity toward the origin scaled by the random speed times the type
multiplier; the fresh target starts non-dying with the per-type scale. -/
def spawnEnemy (n : ℕ) (p : SpawnParams) : Enemy :=
  let ty := chooseType p.rand
  let cfg := configOf ty
  let pos : Vec3 := ⟨SPAWN_RADIUS * p.c, (p.r2 - 1/2) * 10, -(SPAWN_RADIUS * p.s)⟩
  let baseSpeed := SPEED_MIN + p.r3 * (SPEED_MAX - SPEED_MIN)
  let speed := baseSpeed * cfg.speedMult
  { id := n
    pos := pos
    vel := Vec3.scale speed p.dir
    rotx := 0
    roty := 0
    scale := cfg.scale
    isDying := false
    points := cfg.points
    etype := ty }

/-! ### Per-frame target simulation (`animate`) -/

/-- Advancement of one live target in `animate`: position += velocity,
rotation.x += 0.02, rotation.y += 0.03, and phantoms get the pulsing scale
1.0 + sin(now * 0.005) * 0.2, where `pulse` stands for the value of
`Math.sin(Date.now() * 0.005)` this frame. -/
def advanceEnemy (pulse : ℚ) (e : Enemy) : Enemy :=
  { e with
      pos := e.pos.add e.vel
      rotx := e.rotx + 1/50
      roty := e.roty + 3/100
      scale := if e.etype = .phantom then 1 + pulse * (1/5) else e.scale }

/-- One target as `animate` leaves it before the bounds check: dying targets
are not advanced (`if (!enemy.isDying)`), live ones are. -/
def advOrKeep (pulse : ℚ) (e : Enemy) : Enemy :=
  if e.isDying then e else advanceEnemy pulse e

/-- Result of the per-frame enemy loop: the surviving targets in their
original order, the replacement targets in spawn order (the source filter
keeps order and push appends), and the fresh-id counter after the frame. -/
structure AnimOut where
  kept : List Enemy
  spawned : List Enemy
  counter : ℕ
deriving Repr

/-- The enemy loop of `animate`: every target is advanced unless dying, and
any target (dying or not) whose squared distance from the origin exceeds
900 (= 30 squared) is removed and a replacement is spawned.  `gen k` is
the random draw consumed by the replacement spawned with fresh id `k`. -/
def animateGo (gen : ℕ → SpawnParams) (pulse : ℚ) : ℕ → List Enemy → AnimOut
  | n, [] => ⟨[], [], n⟩
  | n, e :: rest =>
    if 900 < lenSqQ (advOrKeep pulse e).pos then
      ⟨(animateGo gen pulse (n + 1) rest).kept,
       spawnEnemy n (gen n) :: (animateGo gen pulse (n + 1) rest).spawned,
       (animateGo gen pulse (n + 1) rest).counter⟩
    else
      ⟨advOrKeep pulse e :: (animateGo gen pulse n rest).kept,
       (animateGo gen pulse n rest).spawned,
       (animateGo gen pulse n rest).counter⟩

/-! ### Floating text / VFX (`animate`, vfx filter) -/

/-- A floating-text item (the FloatingText record of types.ts); the
presentation-only `text` and `color` fields are elided, `life` and the
world position are what the per-frame pass reads and writes. -/
structure FloatingText where
  pos : Vec3
  life : ℚ
deriving DecidableEq, Repr

/-- The per-frame mutation applied to every vfx item inside the filter body:
life -= 0.025 and position.y += 0.04. -/
def ageVFX (v : FloatingText) : FloatingText :=
  { v with pos := { v.pos with y := v.pos.y + 1/25 }, life := v.life - 1/40 }

/-- The vfx pass of `animate`: every item is aged, then only items with
life still strictly positive are kept (`return v.life > 0`). -/
def stepVFX (l : List FloatingText) : List FloatingText :=
  (l.map ageVFX).filter (fun v => 0 < v.life)

/-! ### Game state and the hit resolver (`handleShoot`) -/

/-- The score-relevant part of the GameState record of types.ts (loading,
status message, flash and timestamps are presentation only and elided). -/
structure GState where
  score : ℕ
  combo : ℕ
  handDetected : Bool
deriving DecidableEq, Repr

/-- The initial game state of the component (`useState` initialiser):
score 0, combo 0, no hand detected. -/
def initialGState : GState := ⟨0, 0, false⟩

/-- JS Array.prototype.findIndex, with `none` for -1. -/
def findIndexL (p : Enemy → Bool) : List Enemy → Option ℕ
  | [] => none
  | e :: rest => if p e then some 0 else (findIndexL p rest).map (· + 1)

/-- The mutation `handleShoot` applies to the hit target: mark it dying and
double its scale (the emissive flash is presentation only). -/
def markDying (e : Enemy) : Enemy :=
  { e with isDying := true, scale := e.scale * 2 }

/-- Result of one `handleShoot` call: the updated target list, game state,
vfx list, list of pending delayed removals (scheduled `setTimeout`
callbacks, identified by target id), and the index of the hit target if
any. -/
structure ShootOut where
  enemies : List Enemy
  g : GState
  vfx : List FloatingText
  pending : List ℕ
  hitIdx : Option ℕ
deriving Repr

/-- handleShoot of the source.  `captured` is the game-state snapshot held
by the closure (the first-render state, see the header comment): the combo
bonus reads `gameState.combo` from it.  `intersect e` stands for
`raycaster.intersectObject(e.mesh).length > 0` for the ray `(origin,
direction)`; the raycast itself is the external renderer.  The target
search is a plain findIndex over the whole list, with no dying filter.  On
a hit the found target is marked dying, its scale doubles, score and combo
are updated through the current state `g`, a +points vfx item is pushed at
the hit position, and a delayed removal of the target id is scheduled.  On
a miss combo resets to 0 and a vfx item is pushed 15 units along the ray. -/
def handleShoot (captured : GState) (intersect : Enemy → Bool)
    (direction origin : Vec3) (enemies : List Enemy) (g : GState)
    (vfx : List FloatingText) (pending : List ℕ) : ShootOut :=
  match findIndexL intersect enemies with
  | some i =>
    let e := enemies.getD i default
    let comboBonus := captured.combo / 5 * 50
    let totalPoints := e.points + comboBonus
    { enemies := enemies.set i (markDying e)
      g := { g with score := g.score + totalPoints, combo := g.combo + 1 }
      vfx := vfx ++ [⟨e.pos, 1⟩]
      pending := pending ++ [e.id]
      hitIdx := some i }
  | none =>
    { enemies := enemies
      g := { g with combo := 0 }
      vfx := vfx ++ [⟨origin.add (direction.scale 15), 1⟩]
      pending := pending
      hitIdx := none }

/-! ### Trigger detector (`onResults`, lines 325-334) -/

/-- One trigger decision: given the edge flag and the thumb-tip to
index-base distance, returns (fire signal, new flag).  The source fires
and sets the flag when the distance is below TRIGGER_THRESHOLD with the
flag clear, keeps the flag while below threshold, and clears it at or
above threshold. -/
def triggerStep (isTriggered : Bool) (dist : ℚ) : Bool × Bool :=
  if dist < TRIGGER_THRESHOLD then
    if !isTriggered then (true, true) else (false, true)
  else (false, false)

/-- Fire signals produced across a sequence of detection ticks with the
given distances, starting from the given flag. -/
def fireList (flag : Bool) : List ℚ → List Bool
  | [] => []
  | d :: ds => (triggerStep flag d).1 :: fireList (triggerStep flag d).2 ds

/-- Number of fire signals across a distance sequence. -/
def countFires (flag : Bool) (ds : List ℚ) : ℕ := (fireList flag ds).count true

/-- Whether a fire signal is produced on tick `i` (0-based). -/
def fireAt (flag : Bool) (ds : List ℚ) (i : ℕ) : Bool :=
  (fireList flag ds).getD i false

/-! ### Aim resolver and aim-assist engine (`onResults`) -/

/-- The vector from which the raw aim direction is normalized:
(indexTip.x - indexBase.x, -(indexTip.y - indexBase.y), -0.5). -/
def rawAimVec (indexTip indexBase : Pt2) : Vec3 :=
  ⟨indexTip.x - indexBase.x, -(indexTip.y - indexBase.y), -(1/2)⟩

/-- The angular threshold of the aim assist,
AIM_ASSIST_RADIUS * (Math.PI / 180) * 6, with `piRat` standing for the
value of `Math.PI`. -/
def assistThreshold (piRat : ℚ) : ℚ := AIM_ASSIST_RADIUS * (piRat / 180) * 6

/-- The aim-assist loop of `onResults`.  `angleOf` stands for the THREE.js
`Vector3.angleTo` computation and `unitv` for `Vector3.normalize`, both
irreducibly transcendental and supplied as parameters; `d` is the current
(already possibly adjusted) aim direction and `f` the targetFound flag.
Dying targets are skipped; for each other target whose direction makes an
angle below the threshold with the current direction, the direction is
lerped toward it by AIM_ASSIST_STRENGTH and the flag is set. -/
def aimAssistGo (angleOf : Vec3 → Vec3 → ℚ) (piRat : ℚ)
    (unitv : Vec3 → Vec3) (origin : Vec3) :
    Vec3 → Bool → List Enemy → Vec3 × Bool
  | d, f, [] => (d, f)
  | d, f, e :: rest =>
    if e.isDying then aimAssistGo angleOf piRat unitv origin d f rest
    else
      let toEnemy := unitv (e.pos.sub origin)
      if angleOf d toEnemy < assistThreshold piRat then
        aimAssistGo angleOf piRat unitv origin
          (d.lerp toEnemy AIM_ASSIST_STRENGTH) true rest
      else aimAssistGo angleOf piRat unitv origin d f rest

/-- The aim assist as run on a detection tick: fold over the target list
starting from the raw aim direction with targetFound = false. -/
def aimAssistRun (angleOf : Vec3 → Vec3 → ℚ) (piRat : ℚ)
    (unitv : Vec3 → Vec3) (origin d0 : Vec3) (enemies : List Enemy) :
    Vec3 × Bool :=
  aimAssistGo angleOf piRat unitv origin d0 false enemies

/-! ### The detection tick (`onResults`) and the whole-system transitions -/

/-- One accepted detection tick's worth of input, as the try block of
`onResults` distinguishes it.  `noHands` is an explicit empty (or absent)
hand list; `malformed` is a nonempty hand list whose landmark data makes
one of the landmark accesses throw (the exception is caught by the
surrounding try/catch); `hands` carries the three landmarks the consumer
reads: thumb tip (4), index base (5), index tip (8). -/
inductive DetectInput where
  | noHands
  | malformed
  | hands (thumbTip indexBase indexTip : Pt2)
deriving DecidableEq, Repr

/-- The whole mutable state the core manipulates: game state, trigger edge
flag, target list, vfx list, pending delayed removals, fresh-id counter. -/
structure Sim where
  g : GState
  trig : Bool
  enemies : List Enemy
  vfx : List FloatingText
  pending : List ℕ
  nextId : ℕ
deriving DecidableEq, Repr

/-- One accepted detection tick (`onResults` after the rate limiter).
With no hands, handDetected is set false.  With hands present the source
first sets handDetected true, then reads the landmarks: on malformed data
that read throws and the catch block ends the tick, so nothing else
changes.  On well-formed data the gun origin and raw aim direction are
computed, the aim assist adjusts the direction, and the thumb-to-index
distance drives the edge-triggered shot: the source compares
`Math.sqrt(dx^2 + dy^2) < TRIGGER_THRESHOLD`, which is compared here in
squared form.  The crosshair and laser updates are presentation only.
`handleShoot` is called with the captured first-render snapshot
`initialGState` (see the header comment). -/
def onResultsTick (angleOf : Vec3 → Vec3 → ℚ) (piRat : ℚ)
    (unitv : Vec3 → Vec3) (intersect : Enemy → Bool)
    (s : Sim) (inp : DetectInput) : Sim :=
  match inp with
  | .noHands => { s with g := { s.g with handDetected := false } }
  | .malformed => { s with g := { s.g with handDetected := true } }
  | .hands thumbTip indexBase indexTip =>
    let g1 := { s.g with handDetected := true }
    let gunOrigin : Vec3 :=
      ⟨(indexBase.x - 1/2) * 12, -(indexBase.y - 1/2) * 12, -2⟩
    let aimDirection := unitv (rawAimVec indexTip indexBase)
    let assisted :=
      aimAssistRun angleOf piRat unitv gunOrigin aimDirection s.enemies
    let finalAimDir := assisted.1
    let distSq := (thumbTip.x - indexBase.x) ^ 2 + (thumbTip.y - indexBase.y) ^ 2
    if distSq < TRIGGER_THRESHOLD ^ 2 then
      if s.trig then { s with g := g1 }
      else
        let r := handleShoot initialGState intersect (unitv finalAimDir)
          gunOrigin s.enemies g1 s.vfx s.pending
        { s with
            g := r.g
            trig := true
            enemies := r.enemies
            vfx := r.vfx
            pending := r.pending }
    else { s with g := g1, trig := false }

/-- One frame of the render loop (`animate`): the enemy loop with
out-of-bounds recycling, then the vfx aging pass. -/
def animateFrame (gen : ℕ → SpawnParams) (pulse : ℚ) (s : Sim) : Sim :=
  let r := animateGo gen pulse s.nextId s.enemies
  { s with
      enemies := r.kept ++ r.spawned
      vfx := stepVFX s.vfx
      nextId := r.counter }

/-- The delayed removal scheduled by a hit firing 100 ms later: all targets
with the scheduled id are filtered out and one replacement is spawned
(the filter plus push of the setTimeout body in `handleShoot`). -/
def timeoutFire (i : ℕ) (p : SpawnParams) (s : Sim) : Sim :=
  { s with
      enemies := s.enemies.filter (fun e => e.id ≠ i) ++ [spawnEnemy s.nextId p]
      pending := s.pending.erase i
      nextId := s.nextId + 1 }

/-- The state after mount: `initThree` spawns ENEMY_COUNT targets into the
empty scene, the game state is the useState initialiser, the trigger flag
ref starts false, no vfx, no pending removals. -/
def initSim (gen : ℕ → SpawnParams) : Sim :=
  { g := initialGState
    trig := false
    enemies := (List.range ENEMY_COUNT).map (fun k => spawnEnemy k (gen k))
    vfx := []
    pending := []
    nextId := ENEMY_COUNT }

/-- The transition relation of the running program: an accepted detection
tick (with the external transcendental operations and the raycast oracle
of that tick as parameters), a render frame (with that frame's random
draws, all satisfying the constraints the source guarantees), or a
scheduled delayed removal firing. -/
inductive Step : Sim → Sim → Prop
  | detect (angleOf : Vec3 → Vec3 → ℚ) (piRat : ℚ) (unitv : Vec3 → Vec3)
      (intersect : Enemy → Bool) (inp : DetectInput) (s : Sim) :
      Step s (onResultsTick angleOf piRat unitv intersect s inp)
  | animate (gen : ℕ → SpawnParams) (pulse : ℚ)
      (hv : ∀ k, ValidSpawn (gen k)) (s : Sim) :
      Step s (animateFrame gen pulse s)
  | timeout (i : ℕ) (p : SpawnParams) (s : Sim)
      (hp : i ∈ s.pending) (hv : ValidSpawn p) :
      Step s (timeoutFire i p s)

/-- A state the running program can reach from the state after mount. -/
def Reachable (s : Sim) : Prop :=
  ∃ gen : ℕ → SpawnParams,
    (∀ k, ValidSpawn (gen k)) ∧ Relation.ReflTransGen Step (initSim gen) s

/-- The transition relation restricted to runs in which no fire signal ever
resolves against a target that is already dying (the first intersected
target, when there is one, is live). -/
inductive GoodStep : Sim → Sim → Prop
  | detect (angleOf : Vec3 → Vec3 → ℚ) (piRat : ℚ) (unitv : Vec3 → Vec3)
      (intersect : Enemy → Bool) (inp : DetectInput) (s : Sim)
      (hlive : ∀ i, findIndexL intersect s.enemies = some i →
        (s.enemies.getD i default).isDying = false) :
      GoodStep s (onResultsTick angleOf piRat unitv intersect s inp)
  | animate (gen : ℕ → SpawnParams) (pulse : ℚ)
      (hv : ∀ k, ValidSpawn (gen k)) (s : Sim) :
      GoodStep s (animateFrame gen pulse s)
  | timeout (i : ℕ) (p : SpawnParams) (s : Sim)
      (hp : i ∈ s.pending) (hv : ValidSpawn p) :
      GoodStep s (timeoutFire i p s)

/-- Reachability along runs that never re-hit a dying target. -/
def GoodReachable (s : Sim) : Prop :=
  ∃ gen : ℕ → SpawnParams,
    (∀ k, ValidSpawn (gen k)) ∧ Relation.ReflTransGen GoodStep (initSim gen) s

/-- Number of live (non-dying) targets. -/
def countLive (s : Sim) : ℕ := (s.enemies.filter (fun e => !e.isDying)).length

/-- Number of dying, not yet removed targets. -/
def countDying (s : Sim) : ℕ := (s.enemies.filter (fun e => e.isDying)).length

/-! ### Small facts about the spawner -/

/-- A freshly spawned target carries the id it was spawned with. -/
lemma spawnEnemy_id (n : ℕ) (p : SpawnParams) : (spawnEnemy n p).id = n := rfl

/-- A freshly spawned target is not dying. -/
lemma spawnEnemy_isDying (n : ℕ) (p : SpawnParams) :
    (spawnEnemy n p).isDying = false := rfl

/-- A spawn position lies within the bounding radius: its squared norm is
225 + 100 * (r2 - 1/2) ^ 2, at most 250. -/
lemma spawnEnemy_lenSq (n : ℕ) (p : SpawnParams) (hv : ValidSpawn p) :
    lenSqQ (spawnEnemy n p).pos ≤ 900 := by
  obtain ⟨_, _, h3, h4, _, _, hcs⟩ := hv
  have hr : p.r2 * (1 - p.r2) ≥ 0 := mul_nonneg h3 (by linarith)
  simp only [spawnEnemy, lenSqQ, SPAWN_RADIUS]
  nlinarith [hcs, hr]

/-- Advancement (or being left in place while dying) never changes the id. -/
lemma advOrKeep_id (pulse : ℚ) (e : Enemy) : (advOrKeep pulse e).id = e.id := by
  unfold advOrKeep advanceEnemy
  split <;> rfl

/-- Advancement leaves a dying target untouched. -/
lemma advOrKeep_dying (pulse : ℚ) (e : Enemy) (h : e.isDying = true) :
    advOrKeep pulse e = e := by
  simp [advOrKeep, h]

/-! ### List helper lemmas -/

/-- The element returned through getD at an in-range index is a member. -/
lemma getD_mem_of_lt (l : List Enemy) (i : ℕ) (h : i < l.length) :
    l.getD i default ∈ l := by
  induction l generalizing i with
  | nil => simp at h
  | cons a l ih =>
    cases i with
    | zero => simp
    | succ i => exact List.mem_cons_of_mem a (ih i (by simpa using h))

/-- In a list with pairwise distinct ids, the id determines the element. -/
lemma id_inj (l : List Enemy) (h : (l.map Enemy.id).Nodup) :
    ∀ a ∈ l, ∀ b ∈ l, a.id = b.id → a = b := by
  induction l with
  | nil => simp
  | cons x l ih =>
    simp only [List.map_cons, List.nodup_cons] at h
    obtain ⟨hx, hl⟩ := h
    intro a ha b hb hab
    rcases List.mem_cons.1 ha with ha1 | ha2
    · rcases List.mem_cons.1 hb with hb1 | hb2
      · rw [ha1, hb1]
      · exfalso; apply hx
        rw [← ha1, hab]
        exact List.mem_map_of_mem Enemy.id hb2
    · rcases List.mem_cons.1 hb with hb1 | hb2
      · exfalso; apply hx
        rw [← hb1, ← hab]
        exact List.mem_map_of_mem Enemy.id ha2
      · exact ih hl a ha2 b hb2 hab

/-- Setting an index keeps the written element a member when in range. -/
lemma mem_set_self (l : List Enemy) :
    ∀ (i : ℕ) (x : Enemy), i < l.length → x ∈ l.set i x := by
  induction l with
  | nil => intro i x h; simp at h
  | cons a l ih =>
    intro i x h
    cases i with
    | zero => simp
    | succ i => exact List.mem_cons_of_mem a (ih i x (by simpa using h))

/-- A member different from the element at the written index survives a set. -/
lemma mem_set_of_ne_getD (l : List Enemy) :
    ∀ (i : ℕ) (x y : Enemy), y ∈ l → y ≠ l.getD i default → y ∈ l.set i x := by
  induction l with
  | nil => simp
  | cons a l ih =>
    intro i x y hy hne
    cases i with
    | zero =>
      rcases List.mem_cons.1 hy with rfl | hy
      · rw [List.getD_cons_zero] at hne; exact absurd rfl hne
      · exact List.mem_cons_of_mem x hy
    | succ i =>
      rcases List.mem_cons.1 hy with rfl | hy
      · simp
      · exact List.mem_cons_of_mem a (ih i x y hy (by simpa using hne))

/-- Writing an element with the id of the overwritten slot keeps the id list. -/
lemma map_id_set (l : List Enemy) :
    ∀ (i : ℕ) (x : Enemy), x.id = (l.getD i default).id →
      (l.set i x).map Enemy.id = l.map Enemy.id := by
  induction l with
  | nil => simp
  | cons a l ih =>
    intro i x h
    cases i with
    | zero => simpa using h
    | succ i => simp [ih i x (by simpa using h)]

/-- Appending a fresh element keeps a duplicate-free list duplicate-free. -/
lemma nodup_append_singleton {α : Type} (l : List α) (a : α)
    (h : l.Nodup) (ha : a ∉ l) : (l ++ [a]).Nodup := by
  simp [List.nodup_append, h, ha]

/-- Removing the unique element with a given id shortens the list by one. -/
lemma filter_remove_length (l : List Enemy) (i : ℕ)
    (hnd : (l.map Enemy.id).Nodup) (d : Enemy) (hd : d ∈ l) (hid : d.id = i) :
    (l.filter (fun e => e.id ≠ i)).length + 1 = l.length := by
  induction l with
  | nil => simp at hd
  | cons a l ih =>
    simp only [List.map_cons, List.nodup_cons] at hnd
    obtain ⟨hna, hnl⟩ := hnd
    rcases List.mem_cons.1 hd with rfl | hd
    · have hrest : ∀ x ∈ l, x.id ≠ i := by
        intro x hx hxi
        have hmem : x.id ∈ List.map Enemy.id l := List.mem_map_of_mem Enemy.id hx
        rw [hxi, ← hid] at hmem
        exact hna hmem
      have hfl : l.filter (fun e => e.id ≠ i) = l := by
        rw [List.filter_eq_self]
        intro x hx
        simpa using hrest x hx
      rw [List.filter_cons, if_neg (by simp [hid]), hfl]
      simp
    · have hai : a.id ≠ i := by
        intro h
        have hmem : d.id ∈ List.map Enemy.id l := List.mem_map_of_mem Enemy.id hd
        rw [hid, ← h] at hmem
        exact hna hmem
      have hlen := ih hnl hd
      rw [List.filter_cons, if_pos (by simpa using hai), List.length_cons,
        List.length_cons]
      omega

/-- The two dying-status filters partition the target list. -/
lemma length_filter_dying (l : List Enemy) :
    (l.filter (fun e => !e.isDying)).length
      + (l.filter (fun e => e.isDying)).length = l.length := by
  induction l with
  | nil => rfl
  | cons a l ih => cases ha : a.isDying <;> simp [List.filter_cons, ha] <;> omega

/-! ### Facts about findIndexL (JS findIndex) -/

/-- A successful findIndex returns an in-range index whose element satisfies
the predicate while every earlier element refutes it. -/
lemma findIndexL_some (p : Enemy → Bool) (l : List Enemy) :
    ∀ i, findIndexL p l = some i →
      i < l.length ∧ p (l.getD i default) = true ∧
        ∀ j, j < i → p (l.getD j default) = false := by
  induction l with
  | nil => intro i h; simp [findIndexL] at h
  | cons a l ih =>
    intro i h
    by_cases ha : p a
    · simp only [findIndexL, if_pos ha, Option.some.injEq] at h
      subst h
      exact ⟨by simp, by simpa using ha, by omega⟩
    · simp only [findIndexL, if_neg ha, Option.map_eq_some'] at h
      obtain ⟨i', hi', rfl⟩ := h
      obtain ⟨h1, h2, h3⟩ := ih i' hi'
      refine ⟨by simpa using h1, by simpa using h2, ?_⟩
      intro j hj
      cases j with
      | zero => simpa using ha
      | succ j => simpa using h3 j (by omega)

/-- findIndex on a list whose prefix refutes the predicate while `e`
satisfies it returns the position of `e`. -/
lemma findIndexL_append (p : Enemy → Bool) (l1 l2 : List Enemy) (e : Enemy)
    (h1 : ∀ x ∈ l1, p x = false) (he : p e = true) :
    findIndexL p (l1 ++ e :: l2) = some l1.length := by
  induction l1 with
  | nil => simp [findIndexL, he]
  | cons a l1 ih =>
    have ha : p a = false := h1 a (by simp)
    have := ih (fun x hx => h1 x (by simp [hx]))
    simp [findIndexL, ha, this]

/-- getD at the junction of an append returns the junction element. -/
lemma getD_append_len (l1 : List Enemy) (e : Enemy) (l2 : List Enemy) :
    (l1 ++ e :: l2).getD l1.length default = e := by
  induction l1 with
  | nil => rfl
  | cons a l1 ih => simpa using ih

/-- set at the junction of an append replaces the junction element. -/
lemma set_append_len (l1 : List Enemy) (e x : Enemy) (l2 : List Enemy) :
    (l1 ++ e :: l2).set l1.length x = l1 ++ x :: l2 := by
  induction l1 with
  | nil => rfl
  | cons a l1 ih => simp [List.set, ih]

/-- Indexing at the junction of an append returns the junction element. -/
lemma getElem_append_len (l1 : List Enemy) (e : Enemy) (l2 : List Enemy)
    (h : l1.length < (l1 ++ e :: l2).length) :
    (l1 ++ e :: l2)[l1.length] = e := by
  have h2 := getD_append_len l1 e l2
  rwa [List.getD_eq_getElem] at h2

/-! ### The per-frame enemy loop: structural facts -/

/-- Combined induction facts about one pass of the enemy loop: the pass
preserves the total count (one spawn per removal), the counter only grows,
survivors are inside the bounding radius, replacements are fresh live
targets inside the radius with ids in [n, counter), the survivors keep
their relative order and ids, replacement ids are pairwise distinct, a
dying target inside the radius always survives unchanged, and a target
out of bounds after advancement never survives. -/
lemma animateGo_spec (gen : ℕ → SpawnParams) (pulse : ℚ)
    (hg : ∀ k, ValidSpawn (gen k)) (l : List Enemy) :
    ∀ n : ℕ, (∀ e ∈ l, e.id < n) → ((l.map Enemy.id).Nodup) →
      (animateGo gen pulse n l).kept.length
          + (animateGo gen pulse n l).spawned.length = l.length
      ∧ n ≤ (animateGo gen pulse n l).counter
      ∧ (∀ e ∈ (animateGo gen pulse n l).kept, lenSqQ e.pos ≤ 900)
      ∧ (∀ e ∈ (animateGo gen pulse n l).spawned,
          n ≤ e.id ∧ e.id < (animateGo gen pulse n l).counter
            ∧ e.isDying = false ∧ lenSqQ e.pos ≤ 900)
      ∧ ((animateGo gen pulse n l).kept.map Enemy.id).Sublist (l.map Enemy.id)
      ∧ ((animateGo gen pulse n l).spawned.map Enemy.id).Nodup
      ∧ (∀ u ∈ l, u.isDying = true → lenSqQ u.pos ≤ 900 →
          u ∈ (animateGo gen pulse n l).kept)
      ∧ (∀ u ∈ l, 900 < lenSqQ (advOrKeep pulse u).pos →
          u.id ∉ (animateGo gen pulse n l).kept.map Enemy.id) := by
  induction l with
  | nil =>
    intro n hn hnd
    simp [animateGo]
  | cons a l ih =>
    intro n hn hnd
    simp only [List.map_cons, List.nodup_cons] at hnd
    obtain ⟨hna, hnl⟩ := hnd
    have hln : ∀ e ∈ l, e.id < n := fun e he => hn e (List.mem_cons_of_mem a he)
    have han : a.id < n := hn a (List.mem_cons_self a l)
    by_cases hp : 900 < lenSqQ (advOrKeep pulse a).pos
    · have hln1 : ∀ e ∈ l, e.id < n + 1 :=
        fun e he => Nat.lt_succ_of_lt (hln e he)
      obtain ⟨i1, i2, i3, i4, i5, i6, i7, i8⟩ := ih (n + 1) hln1 hnl
      simp only [animateGo, if_pos hp]
      refine ⟨?_, ?_, i3, ?_, ?_, ?_, ?_, ?_⟩
      · simp only [List.length_cons]
        omega
      · omega
      · intro e he
        rcases List.mem_cons.1 he with rfl | he
        · exact ⟨Nat.le_refl _, by rw [spawnEnemy_id]; omega,
            spawnEnemy_isDying n (gen n), spawnEnemy_lenSq n (gen n) (hg n)⟩
        · obtain ⟨j1, j2, j3, j4⟩ := i4 e he
          exact ⟨by omega, j2, j3, j4⟩
      · exact List.Sublist.cons a.id i5
      · simp only [List.map_cons, List.nodup_cons]
        refine ⟨?_, i6⟩
        intro hmem
        rw [spawnEnemy_id] at hmem
        obtain ⟨e, he, heid⟩ := List.mem_map.1 hmem
        obtain ⟨j1, _, _, _⟩ := i4 e he
        omega
      · intro u hu hud hu900
        rcases List.mem_cons.1 hu with rfl | hu
        · rw [advOrKeep_dying pulse u hud] at hp
          exact absurd hp (by simpa using hu900)
        · exact i7 u hu hud hu900
      · intro u hu hu900
        rcases List.mem_cons.1 hu with rfl | hu
        · intro hmem
          exact hna (i5.subset hmem)
        · exact i8 u hu hu900
    · obtain ⟨i1, i2, i3, i4, i5, i6, i7, i8⟩ := ih n hln hnl
      simp only [animateGo, if_neg hp]
      refine ⟨?_, i2, ?_, i4, ?_, i6, ?_, ?_⟩
      · simp only [List.length_cons]
        omega
      · intro e he
        rcases List.mem_cons.1 he with rfl | he
        · exact le_of_not_lt hp
        · exact i3 e he
      · simpa only [List.map_cons, advOrKeep_id] using
          List.Sublist.cons₂ a.id i5
      · intro u hu hud hu900
        rcases List.mem_cons.1 hu with rfl | hu
        · rw [advOrKeep_dying pulse u hud]
          exact List.mem_cons_self _ _
        · exact List.mem_cons_of_mem _ (i7 u hu hud hu900)
      · intro u hu hu900
        rcases List.mem_cons.1 hu with rfl | hu
        · exact absurd hu900 hp
        · simp only [List.map_cons, advOrKeep_id, List.mem_cons]
          rintro (heq | hmem)
          · apply hna
            rw [← heq]
            exact List.mem_map_of_mem Enemy.id hu
          · exact i8 u hu hu900 hmem

/-! ### The population invariant -/

/-- The inductive invariant of the running game: the target list always
holds exactly ENEMY_COUNT targets with pairwise distinct ids below the
fresh counter, all inside the bounding radius, and the scheduled delayed
removals are pairwise distinct ids of currently present dying targets. -/
def SimInv (s : Sim) : Prop :=
  s.enemies.length = ENEMY_COUNT
  ∧ (s.enemies.map Enemy.id).Nodup
  ∧ (∀ e ∈ s.enemies, e.id < s.nextId)
  ∧ (∀ e ∈ s.enemies, lenSqQ e.pos ≤ 900)
  ∧ s.pending.Nodup
  ∧ (∀ i ∈ s.pending, ∃ e ∈ s.enemies, e.id = i ∧ e.isDying = true)

/-- One shot that does not land on an already-dying target preserves every
clause of the invariant. -/
lemma handleShoot_inv (captured : GState) (intersect : Enemy → Bool)
    (dir origin : Vec3) (enemies : List Enemy) (g : GState)
    (vfx : List FloatingText) (pending : List ℕ) (nextId : ℕ)
    (h1 : enemies.length = ENEMY_COUNT)
    (h2 : (enemies.map Enemy.id).Nodup)
    (h3 : ∀ e ∈ enemies, e.id < nextId)
    (h4 : ∀ e ∈ enemies, lenSqQ e.pos ≤ 900)
    (h5 : pending.Nodup)
    (h6 : ∀ i ∈ pending, ∃ e ∈ enemies, e.id = i ∧ e.isDying = true)
    (hlive : ∀ i, findIndexL intersect enemies = some i →
      (enemies.getD i default).isDying = false) :
    (handleShoot captured intersect dir origin enemies g vfx pending).enemies.length = ENEMY_COUNT
    ∧ ((handleShoot captured intersect dir origin enemies g vfx pending).enemies.map Enemy.id).Nodup
    ∧ (∀ e ∈ (handleShoot captured intersect dir origin enemies g vfx pending).enemies, e.id < nextId)
    ∧ (∀ e ∈ (handleShoot captured intersect dir origin enemies g vfx pending).enemies, lenSqQ e.pos ≤ 900)
    ∧ (handleShoot captured intersect dir origin enemies g vfx pending).pending.Nodup
    ∧ (∀ i ∈ (handleShoot captured intersect dir origin enemies g vfx pending).pending,
        ∃ e ∈ (handleShoot captured intersect dir origin enemies g vfx pending).enemies,
          e.id = i ∧ e.isDying = true) := by
  cases hfi : findIndexL intersect enemies with
  | none =>
    simp only [handleShoot, hfi]
    exact ⟨h1, h2, h3, h4, h5, h6⟩
  | some i =>
    obtain ⟨hilen, hip, _⟩ := findIndexL_some intersect enemies i hfi
    have hedying : (enemies.getD i default).isDying = false := hlive i hfi
    have hemem : enemies.getD i default ∈ enemies := getD_mem_of_lt enemies i hilen
    simp only [handleShoot, hfi]
    have hids : (markDying (enemies.getD i default)).id
        = (enemies.getD i default).id := rfl
    have hmapset := map_id_set enemies i _ hids
    have hnotpend : (enemies.getD i default).id ∉ pending := by
      intro hmem
      obtain ⟨d, hdmem, hdid, hddying⟩ := h6 _ hmem
      have : d = enemies.getD i default := id_inj enemies h2 d hdmem _ hemem hdid
      rw [this] at hddying
      rw [hddying] at hedying
      exact Bool.true_eq_false.mp hedying
    refine ⟨?_, ?_, ?_, ?_, ?_, ?_⟩
    · rw [List.length_set]; exact h1
    · rw [hmapset]; exact h2
    · intro e he
      rcases List.mem_or_eq_of_mem_set he with he | rfl
      · exact h3 e he
      · simpa [markDying] using h3 _ hemem
    · intro e he
      rcases List.mem_or_eq_of_mem_set he with he | rfl
      · exact h4 e he
      · simpa [markDying] using h4 _ hemem
    · exact nodup_append_singleton pending _ h5 hnotpend
    · intro j hj
      rcases List.mem_append.1 hj with hj | hj
      · obtain ⟨d, hdmem, hdid, hddying⟩ := h6 j hj
        have hdne : d ≠ enemies.getD i default := by
          intro heq
          rw [heq] at hddying
          rw [hddying] at hedying
          exact Bool.true_eq_false.mp hedying
        exact ⟨d, mem_set_of_ne_getD enemies i _ d hdmem hdne, hdid, hddying⟩
      · have hj' : j = (enemies.getD i default).id := by simpa using hj
        subst hj'
        exact ⟨_, mem_set_self enemies i _ hilen, rfl, rfl⟩

/-- The invariant holds in the state after mount. -/
lemma simInv_init (gen : ℕ → SpawnParams) (hg : ∀ k, ValidSpawn (gen k)) :
    SimInv (initSim gen) := by
  refine ⟨?_, ?_, ?_, ?_, ?_, ?_⟩
  · simp [initSim]
  · have : ((List.range ENEMY_COUNT).map
        (fun k => spawnEnemy k (gen k))).map Enemy.id = List.range ENEMY_COUNT := by
      rw [List.map_map]
      have : (Enemy.id ∘ fun k => spawnEnemy k (gen k)) = fun k => k := by
        funext k
        simp [Function.comp, spawnEnemy_id]
      rw [this]
      exact List.map_id _
    simpa [initSim] using this ▸ List.nodup_range ENEMY_COUNT
  · intro e he
    simp only [initSim] at he
    obtain ⟨k, hk, rfl⟩ := List.mem_map.1 he
    rw [spawnEnemy_id]
    simpa [initSim] using List.mem_range.1 hk
  · intro e he
    simp only [initSim] at he
    obtain ⟨k, _, rfl⟩ := List.mem_map.1 he
    exact spawnEnemy_lenSq k (gen k) (hg k)
  · simp [initSim]
  · simp [initSim]

/-- Every transition of a run that never re-hits a dying target preserves
the invariant. -/
lemma simInv_step (s s' : Sim) (hstep : GoodStep s s') (hinv : SimInv s) :
    SimInv s' := by
  obtain ⟨h1, h2, h3, h4, h5, h6⟩ := hinv
  cases hstep with
  | detect angleOf piRat unitv intersect inp s hlive =>
    cases inp with
    | noHands => exact ⟨h1, h2, h3, h4, h5, h6⟩
    | malformed => exact ⟨h1, h2, h3, h4, h5, h6⟩
    | hands thumbTip indexBase indexTip =>
      simp only [onResultsTick]
      split_ifs with hdist htrig
      · exact ⟨h1, h2, h3, h4, h5, h6⟩
      · obtain ⟨k1, k2, k3, k4, k5, k6⟩ :=
          handleShoot_inv initialGState intersect _ _ s.enemies
            { s.g with handDetected := true } s.vfx s.pending s.nextId
            h1 h2 h3 h4 h5 h6 hlive
        exact ⟨k1, k2, k3, k4, k5, k6⟩
      · exact ⟨h1, h2, h3, h4, h5, h6⟩
  | animate gen pulse hv s =>
    obtain ⟨a1, a2, a3, a4, a5, a6, a7, a8⟩ :=
      animateGo_spec gen pulse hv s.enemies s.nextId h3 h2
    have hkeptlt : ∀ x ∈ (animateGo gen pulse s.nextId s.enemies).kept,
        x.id < s.nextId := by
      intro x hx
      have hmem : x.id ∈ s.enemies.map Enemy.id :=
        a5.subset (List.mem_map_of_mem Enemy.id hx)
      obtain ⟨u, hu, huid⟩ := List.mem_map.1 hmem
      rw [← huid]
      exact h3 u hu
    have hkeptnd : ((animateGo gen pulse s.nextId s.enemies).kept.map
        Enemy.id).Nodup := h2.sublist a5
    refine ⟨?_, ?_, ?_, ?_, h5, ?_⟩
    · simp only [animateFrame, List.length_append]
      rw [a1]
      exact h1
    · simp only [animateFrame, List.map_append]
      refine List.Nodup.append hkeptnd a6 ?_
      intro x hx hx'
      obtain ⟨u, hu, huid⟩ := List.mem_map.1 hx
      obtain ⟨v, hv', hvid⟩ := List.mem_map.1 hx'
      have hul := hkeptlt u hu
      obtain ⟨hv1, _, _, _⟩ := a4 v hv'
      omega
    · intro e he
      simp only [animateFrame] at he ⊢
      rcases List.mem_append.1 he with he | he
      · exact lt_of_lt_of_le (hkeptlt e he) a2
      · exact (a4 e he).2.1
    · intro e he
      simp only [animateFrame] at he
      rcases List.mem_append.1 he with he | he
      · exact a3 e he
      · exact (a4 e he).2.2.2
    · intro j hj
      simp only [animateFrame] at hj ⊢
      obtain ⟨d, hd, hdid, hddying⟩ := h6 j hj
      exact ⟨d, List.mem_append.2 (Or.inl (a7 d hd hddying (h4 d hd))),
        hdid, hddying⟩
  | timeout i p s hp hv =>
    obtain ⟨d, hd, hdid, hddying⟩ := h6 i hp
    have hflt : (s.enemies.filter (fun e => e.id ≠ i)).length + 1
        = s.enemies.length := filter_remove_length s.enemies i h2 d hd hdid
    have hfsub : ((s.enemies.filter (fun e => e.id ≠ i)).map Enemy.id).Sublist
        (s.enemies.map Enemy.id) := (List.filter_sublist _).map Enemy.id
    refine ⟨?_, ?_, ?_, ?_, h5.erase i, ?_⟩
    · simp only [timeoutFire, List.length_append, List.length_singleton]
      omega
    · simp only [timeoutFire, List.map_append]
      refine nodup_append_singleton _ _ (h2.sublist hfsub) ?_
      intro hmem
      rw [spawnEnemy_id] at hmem
      obtain ⟨u, hu, huid⟩ := List.mem_map.1 (hfsub.subset hmem)
      have := h3 u hu
      omega
    · intro e he
      simp only [timeoutFire] at he ⊢
      rcases List.mem_append.1 he with he | he
      · exact Nat.lt_succ_of_lt (h3 e (List.mem_of_mem_filter he))
      · rw [List.mem_singleton.1 he, spawnEnemy_id]
        exact Nat.lt_succ_self _
    · intro e he
      simp only [timeoutFire] at he
      rcases List.mem_append.1 he with he | he
      · exact h4 e (List.mem_of_mem_filter he)
      · rw [List.mem_singleton.1 he]
        exact spawnEnemy_lenSq _ p hv
    · intro j hj
      simp only [timeoutFire] at hj ⊢
      have hj' := (List.Nodup.mem_erase_iff h5).1 hj
      obtain ⟨hjne, hjmem⟩ := hj'
      obtain ⟨e, hemem, heid, hedying⟩ := h6 j hjmem
      refine ⟨e, List.mem_append.2 (Or.inl ?_), heid, hedying⟩
      rw [List.mem_filter]
      refine ⟨hemem, ?_⟩
      simp only [ne_eq, decide_not, Bool.not_eq_true', decide_eq_false_iff_not,
        Decidable.not_not]
      omega

/-- Along restricted runs the invariant always holds. -/
lemma goodReachable_inv (s : Sim) (h : GoodReachable s) : SimInv s := by
  obtain ⟨gen, hg, htrace⟩ := h
  induction htrace with
  | refl => exact simInv_init gen hg
  | tail hsteps hstep ih => exact simInv_step _ _ hstep ih

/-! ### Concrete trace data for executable runs

The rational arithmetic operations are shipped irreducible by the library;
for the closed evaluations below they are restored to ordinary
(semireducible) definitions, which only widens what unfolds
definitionally. -/

attribute [local semireducible] Rat.add Rat.mul Rat.sub Rat.inv

/-- A concrete valid spawn draw: rand 1/2 (type normal), vertical offset 0,
angle 0 (cos 1, sin 0, so position (15, 0, 0)), zero direction vector. -/
def p0 : SpawnParams := ⟨1/2, 1/2, 0, 1, 0, ⟨0, 0, 0⟩⟩

/-- The constant spawn-draw stream used by the executable traces. -/
def gen0 : ℕ → SpawnParams := fun _ => p0

/-- A concrete angle oracle that reports every pair at angle 1 radian. -/
def angle0 : Vec3 → Vec3 → ℚ := fun _ _ => 1

/-- A concrete stand-in for the external normalisation. -/
def unit0 : Vec3 → Vec3 := fun v => v

/-- A raycast oracle whose ray meets exactly the target with id 0. -/
def int0 : Enemy → Bool := fun e => e.id == 0

/-- A detection input with the thumb touching the index base: distance 0,
strictly below the trigger threshold. -/
def inpFire : DetectInput := .hands ⟨0, 0⟩ ⟨0, 0⟩ ⟨0, 0⟩

/-- A detection input with the thumb far from the index base: distance 1,
above the trigger threshold, so the edge flag resets. -/
def inpRelease : DetectInput := .hands ⟨1, 0⟩ ⟨0, 0⟩ ⟨0, 0⟩

/-- The constant draw stream satisfies the spawn constraints. -/
lemma gen0_valid : ∀ k, ValidSpawn (gen0 k) := by
  intro k
  show ValidSpawn p0
  decide

/-- C4, counterexample.  The population invariant fails on a reachable
state: fire at the target with id 0 (hit: it is marked dying and one
delayed removal is scheduled), release the trigger, fire at it again
before the first delayed removal runs (the hit test has no dying filter,
so the already-dying target is hit again and a second removal of the same
id is scheduled); the first removal deletes the target and spawns one
replacement, the second removal deletes nothing but still spawns another
replacement.  The resulting reachable state holds 5 targets, not
ENEMY_COUNT = 4. -/
theorem C4_counterexample :
    ∃ s : Sim, Reachable s ∧ countLive s + countDying s ≠ ENEMY_COUNT := by
  have t1 : Relation.ReflTransGen Step (initSim gen0)
      (onResultsTick angle0 0 unit0 int0 (initSim gen0) inpFire) :=
    Relation.ReflTransGen.single (Step.detect angle0 0 unit0 int0 inpFire _)
  have t2 := Relation.ReflTransGen.tail t1
    (Step.detect angle0 0 unit0 int0 inpRelease _)
  have t3 := Relation.ReflTransGen.tail t2
    (Step.detect angle0 0 unit0 int0 inpFire _)
  have t4 := Relation.ReflTransGen.tail t3
    (Step.timeout 0 p0 _ (by decide) (by decide))
  have t5 := Relation.ReflTransGen.tail t4
    (Step.timeout 0 p0 _ (by decide) (by decide))
  exact ⟨_, ⟨gen0, gen0_valid, t5⟩, by decide⟩

/-- C4, amended.  In every state reachable along runs in which no fire
signal resolves against an already-dying target, the number of live
(non-dying) targets plus the number of dying-but-not-yet-removed targets
equals ENEMY_COUNT = 4: transitions are atomic in this model, so the
invariant holds at every observable state, and each removal (by exiting
the bounding radius or by the delayed removal of a hit) is paired with
exactly one replacement spawn inside its transition. -/
theorem C4_population_invariant (s : Sim) (h : GoodReachable s) :
    countLive s + countDying s = ENEMY_COUNT := by
  obtain ⟨hlen, -, -, -, -, -⟩ := goodReachable_inv s h
  have hpart := length_filter_dying s.enemies
  unfold countLive countDying
  omega

/-- C4 witness: the invariant theorem applied to the state after mount,
reached by the empty run. -/
theorem C4_population_invariant_witness :
    countLive (initSim gen0) + countDying (initSim gen0) = ENEMY_COUNT :=
  C4_population_invariant (initSim gen0)
    ⟨gen0, gen0_valid, Relation.ReflTransGen.refl⟩

/-- C5.  In a frame of the render loop, every target (dying or not) whose
squared distance from the origin exceeds 900 (= 30 squared) after the
per-frame advancement (dying targets are not advanced) is removed from the
target collection, and the collection size is preserved because each
removal is paired with exactly one replacement spawn.  The statement
quantifies over arbitrary targets, dying ones included, so the removal is
unconditional with respect to the isDying flag. -/
theorem C5_out_of_bounds_removal (gen : ℕ → SpawnParams) (pulse : ℚ)
    (hg : ∀ k, ValidSpawn (gen k)) (s : Sim) (e : Enemy)
    (hn : ∀ x ∈ s.enemies, x.id < s.nextId)
    (hnd : (s.enemies.map Enemy.id).Nodup)
    (he : e ∈ s.enemies)
    (hfar : 900 < lenSqQ (advOrKeep pulse e).pos) :
    e.id ∉ (animateFrame gen pulse s).enemies.map Enemy.id
    ∧ (animateFrame gen pulse s).enemies.length = s.enemies.length := by
  obtain ⟨a1, _, _, a4, _, _, _, a8⟩ :=
    animateGo_spec gen pulse hg s.enemies s.nextId hn hnd
  constructor
  · simp only [animateFrame, List.map_append]
    intro hmem
    rcases List.mem_append.1 hmem with hmem | hmem
    · exact a8 e he hfar hmem
    · obtain ⟨x, hx, hxid⟩ := List.mem_map.1 hmem
      obtain ⟨hx1, _, _, _⟩ := a4 x hx
      have := hn e he
      omega
  · simp only [animateFrame, List.length_append]
    exact a1

/-- C5 witness: a single dying target at position (31, 0, 0), squared norm
961 > 900, is removed by the frame and replaced, the collection size
staying 1. -/
theorem C5_out_of_bounds_removal_witness :
    0 ∉ (animateFrame gen0 0
        { g := initialGState, trig := false,
          enemies := [⟨0, ⟨31, 0, 0⟩, ⟨0, 0, 0⟩, 0, 0, 1, true, 100, .normal⟩],
          vfx := [], pending := [], nextId := 1 }).enemies.map Enemy.id
    ∧ (animateFrame gen0 0
        { g := initialGState, trig := false,
          enemies := [⟨0, ⟨31, 0, 0⟩, ⟨0, 0, 0⟩, 0, 0, 1, true, 100, .normal⟩],
          vfx := [], pending := [], nextId := 1 }).enemies.length = 1 :=
  C5_out_of_bounds_removal gen0 0 gen0_valid
    { g := initialGState, trig := false,
      enemies := [⟨0, ⟨31, 0, 0⟩, ⟨0, 0, 0⟩, 0, 0, 1, true, 100, .normal⟩],
      vfx := [], pending := [], nextId := 1 }
    ⟨0, ⟨31, 0, 0⟩, ⟨0, 0, 0⟩, 0, 0, 1, true, 100, .normal⟩
    (by decide) (by decide) (by decide) (by decide)

/-- C1, counterexample.  The hit search of handleShoot is a findIndex over
the whole target list with no dying filter: on a list holding a dying
target at index 0 and a live one at index 1, with the ray meeting both,
the DYING target is the one selected and scored, refuting the claim that
a target with isDying = true is never selected. -/
theorem C1_counterexample :
    (handleShoot initialGState (fun _ => true) ⟨0, 0, -1⟩ ⟨0, 0, 0⟩
        [⟨0, ⟨0, 0, -5⟩, ⟨0, 0, 0⟩, 0, 0, 1, true, 100, .normal⟩,
         ⟨1, ⟨0, 0, -7⟩, ⟨0, 0, 0⟩, 0, 0, 1, false, 100, .normal⟩]
        initialGState [] []).hitIdx = some 0
    ∧ (⟨0, ⟨0, 0, -5⟩, ⟨0, 0, 0⟩, 0, 0, 1, true, 100, .normal⟩ : Enemy).isDying
        = true
    ∧ (⟨1, ⟨0, 0, -7⟩, ⟨0, 0, 0⟩, 0, 0, 1, false, 100, .normal⟩ : Enemy).isDying
        = false
    ∧ (handleShoot initialGState (fun _ => true) ⟨0, 0, -1⟩ ⟨0, 0, 0⟩
        [⟨0, ⟨0, 0, -5⟩, ⟨0, 0, 0⟩, 0, 0, 1, true, 100, .normal⟩,
         ⟨1, ⟨0, 0, -7⟩, ⟨0, 0, 0⟩, 0, 0, 1, false, 100, .normal⟩]
        initialGState [] []).g.combo = initialGState.combo + 1 := by
  decide

/-- C1, amended.  On a fire signal the Hit Resolver tests the targets in
target-list order with no dying filter, and the hit target is the FIRST
target in that order whose geometry the ray intersects (first-match, not
nearest-match), regardless of any isDying flags: if every target of the
prefix misses and `e` intersects, `e` is the one hit, marked dying, and
scored; in particular for [A, B] both intersecting with A first, A is the
one hit (take the empty prefix). -/
theorem C1_first_match_any_target (captured : GState) (intersect : Enemy → Bool)
    (dir origin : Vec3) (l1 l2 : List Enemy) (e : Enemy) (g : GState)
    (vfx : List FloatingText) (pending : List ℕ)
    (h1 : ∀ x ∈ l1, intersect x = false) (he : intersect e = true) :
    (handleShoot captured intersect dir origin (l1 ++ e :: l2) g vfx pending).hitIdx
        = some l1.length
    ∧ (handleShoot captured intersect dir origin (l1 ++ e :: l2) g vfx pending).enemies
        = l1 ++ markDying e :: l2
    ∧ (handleShoot captured intersect dir origin (l1 ++ e :: l2) g vfx pending).g.combo
        = g.combo + 1
    ∧ (handleShoot captured intersect dir origin (l1 ++ e :: l2) g vfx pending).g.score
        = g.score + (e.points + captured.combo / 5 * 50)
    ∧ (handleShoot captured intersect dir origin (l1 ++ e :: l2) g vfx pending).pending
        = pending ++ [e.id] := by
  have hf := findIndexL_append intersect l1 l2 e h1 he
  simp [handleShoot, hf, getD_append_len, set_append_len, getElem_append_len]

/-- C1 witness: with a non-intersecting target at index 0 and an
intersecting one at index 1, the target at index 1 is hit. -/
theorem C1_first_match_any_target_witness :
    (handleShoot initialGState (fun x => x.id == 1) ⟨0, 0, -1⟩ ⟨0, 0, 0⟩
        [⟨0, ⟨0, 0, -5⟩, ⟨0, 0, 0⟩, 0, 0, 1, false, 100, .normal⟩,
         ⟨1, ⟨0, 0, -7⟩, ⟨0, 0, 0⟩, 0, 0, 1, false, 100, .normal⟩]
        initialGState [] []).hitIdx = some 1 :=
  (C1_first_match_any_target initialGState (fun x => x.id == 1)
    ⟨0, 0, -1⟩ ⟨0, 0, 0⟩
    [⟨0, ⟨0, 0, -5⟩, ⟨0, 0, 0⟩, 0, 0, 1, false, 100, .normal⟩] []
    ⟨1, ⟨0, 0, -7⟩, ⟨0, 0, 0⟩, 0, 0, 1, false, 100, .normal⟩
    initialGState [] [] (by decide) (by decide)).1

/-- C2.  The combo bonus of handleShoot reads `gameState.combo` from the
closure registered once at mount, so it always evaluates from the initial
snapshot (combo 0): with current combo 5 and a 100-point target, the
score increases by 100, NOT by the claimed 100 + floor(5/5)*50 = 150,
while the combo (updated through the functional updater) does become 6. -/
theorem C2_stale_combo_bonus :
    (handleShoot initialGState (fun _ => true) ⟨0, 0, -1⟩ ⟨0, 0, 0⟩
        [⟨0, ⟨0, 0, -5⟩, ⟨0, 0, 0⟩, 0, 0, 1, false, 100, .normal⟩]
        ⟨0, 5, false⟩ [] []).g.score = 100
    ∧ (handleShoot initialGState (fun _ => true) ⟨0, 0, -1⟩ ⟨0, 0, 0⟩
        [⟨0, ⟨0, 0, -5⟩, ⟨0, 0, 0⟩, 0, 0, 1, false, 100, .normal⟩]
        ⟨0, 5, false⟩ [] []).g.score ≠ 150
    ∧ (handleShoot initialGState (fun _ => true) ⟨0, 0, -1⟩ ⟨0, 0, 0⟩
        [⟨0, ⟨0, 0, -5⟩, ⟨0, 0, 0⟩, 0, 0, 1, false, 100, .normal⟩]
        ⟨0, 5, false⟩ [] []).g.combo = 6 := by
  decide

/-- C9.  A fire signal that finds no intersecting target resets the combo
to 0 unconditionally and leaves the score and the target list unchanged;
a fire signal is a miss exactly when findIndex fails; and exactly one of
the hit outcome (some index, combo incremented) and the miss outcome
(no index, combo 0, score unchanged) occurs for every fire signal. -/
theorem C9_miss_resets_combo (captured : GState) (intersect : Enemy → Bool)
    (dir origin : Vec3) (enemies : List Enemy) (g : GState)
    (vfx : List FloatingText) (pending : List ℕ) :
    ((handleShoot captured intersect dir origin enemies g vfx pending).hitIdx = none →
      (handleShoot captured intersect dir origin enemies g vfx pending).g.combo = 0
      ∧ (handleShoot captured intersect dir origin enemies g vfx pending).g.score = g.score
      ∧ (handleShoot captured intersect dir origin enemies g vfx pending).enemies = enemies)
    ∧ ((handleShoot captured intersect dir origin enemies g vfx pending).hitIdx = none
        ↔ findIndexL intersect enemies = none)
    ∧ Xor'
        (∃ i, (handleShoot captured intersect dir origin enemies g vfx pending).hitIdx = some i
          ∧ (handleShoot captured intersect dir origin enemies g vfx pending).g.combo
              = g.combo + 1)
        ((handleShoot captured intersect dir origin enemies g vfx pending).hitIdx = none
          ∧ (handleShoot captured intersect dir origin enemies g vfx pending).g.combo = 0
          ∧ (handleShoot captured intersect dir origin enemies g vfx pending).g.score
              = g.score) := by
  cases hfi : findIndexL intersect enemies with
  | none => simp [handleShoot, hfi, Xor']
  | some i => simp [handleShoot, hfi, Xor']

/-- C9 witness: a miss from combo 3 resets the combo to 0 and keeps the
score at 7. -/
theorem C9_miss_resets_combo_witness :
    (handleShoot initialGState (fun _ => false) ⟨0, 0, -1⟩ ⟨0, 0, 0⟩ []
        ⟨7, 3, false⟩ [] []).g.combo = 0
    ∧ (handleShoot initialGState (fun _ => false) ⟨0, 0, -1⟩ ⟨0, 0, 0⟩ []
        ⟨7, 3, false⟩ [] []).g.score = 7 :=
  have h := (C9_miss_resets_combo initialGState (fun _ => false) ⟨0, 0, -1⟩
    ⟨0, 0, 0⟩ [] ⟨7, 3, false⟩ [] []).1 (by decide)
  ⟨h.1, h.2.1⟩

/-! ### Trigger detector lemmas -/

/-- With the edge flag held, a run of sub-threshold distances produces no
fire signal at all. -/
lemma fireList_held (ds : List ℚ) (hsub : ∀ d ∈ ds, d < TRIGGER_THRESHOLD) :
    fireList true ds = List.replicate ds.length false := by
  induction ds with
  | nil => rfl
  | cons d ds ih =>
    have hd : d < TRIGGER_THRESHOLD := hsub d (List.mem_cons_self d ds)
    simp [fireList, triggerStep, hd, List.replicate_succ,
      ih (fun x hx => hsub x (List.mem_cons_of_mem d hx))]

/-- A fire signal from a held flag needs an earlier at-or-above-threshold
tick: if tick j fires starting from flag = true, some tick k ≤ j saw a
distance at or above the threshold. -/
lemma fire_from_held (ds : List ℚ) :
    ∀ j, fireAt true ds j = true →
      ∃ k, k ≤ j ∧ TRIGGER_THRESHOLD ≤ ds.getD k 0 := by
  induction ds with
  | nil => intro j h; simp [fireAt, fireList] at h
  | cons d ds ih =>
    intro j h
    by_cases hd : d < TRIGGER_THRESHOLD
    · cases j with
      | zero => simp [fireAt, fireList, triggerStep, hd] at h
      | succ j =>
        have h' : fireAt true ds j = true := by
          simpa [fireAt, fireList, triggerStep, hd] using h
        obtain ⟨k, hk, hth⟩ := ih j h'
        exact ⟨k + 1, by omega, by simpa using hth⟩
    · exact ⟨0, Nat.zero_le _, by simpa using le_of_not_lt hd⟩

/-- Between any two fire signals of one run there is an
at-or-above-threshold tick. -/
lemma fire_needs_release (ds : List ℚ) :
    ∀ (flag : Bool) (i j : ℕ), i < j → fireAt flag ds i = true →
      fireAt flag ds j = true →
      ∃ k, i < k ∧ k ≤ j ∧ TRIGGER_THRESHOLD ≤ ds.getD k 0 := by
  induction ds with
  | nil => intro flag i j _ h; simp [fireAt, fireList] at h
  | cons d ds ih =>
    intro flag i j hij hi hj
    cases i with
    | zero =>
      have hfire : (triggerStep flag d).1 = true := by
        simpa [fireAt, fireList] using hi
      have hd : d < TRIGGER_THRESHOLD := by
        by_contra hco
        unfold triggerStep at hfire
        rw [if_neg hco] at hfire
        simp at hfire
      have hflag : (triggerStep flag d).2 = true := by
        unfold triggerStep
        rw [if_pos hd]
        split_ifs <;> rfl
      cases j with
      | zero => omega
      | succ j =>
        have hj' : fireAt (triggerStep flag d).2 ds j = true := by
          simpa [fireAt, fireList] using hj
        rw [hflag] at hj'
        obtain ⟨k, hk, hth⟩ := fire_from_held ds j hj'
        exact ⟨k + 1, by omega, by omega, by simpa using hth⟩
    | succ i =>
      cases j with
      | zero => omega
      | succ j =>
        have hi' : fireAt (triggerStep flag d).2 ds i = true := by
          simpa [fireAt, fireList] using hi
        have hj' : fireAt (triggerStep flag d).2 ds j = true := by
          simpa [fireAt, fireList] using hj
        obtain ⟨k, hk1, hk2, hth⟩ := ih (triggerStep flag d).2 i j (by omega) hi' hj'
        exact ⟨k + 1, by omega, by omega, by simpa using hth⟩

/-- C3.  The trigger is edge-triggered: one tick fires exactly when the
distance is strictly below TRIGGER_THRESHOLD and the edge flag is false,
after which the flag is true; the flag is false after a tick exactly when
the distance was at or above the threshold.  Consequently a nonempty run
of consecutive sub-threshold ticks starting with a clear flag produces
exactly one fire signal, a run starting with the flag held produces none,
two fire signals always have an at-or-above-threshold tick strictly
between the first and at or before the second, and the distance sequence
[0.03, 0.03, 0.08, 0.03] against threshold 0.06 produces exactly the fire
signals [true, false, false, true] (ticks 1 and 4, with 2 fires). -/
theorem C3_trigger_edge :
    (∀ (flag : Bool) (d : ℚ),
      ((triggerStep flag d).1 = true ↔ d < TRIGGER_THRESHOLD ∧ flag = false)
      ∧ ((triggerStep flag d).2 = false ↔ TRIGGER_THRESHOLD ≤ d))
    ∧ (∀ ds : List ℚ, ds ≠ [] → (∀ d ∈ ds, d < TRIGGER_THRESHOLD) →
        countFires false ds = 1)
    ∧ (∀ ds : List ℚ, (∀ d ∈ ds, d < TRIGGER_THRESHOLD) →
        countFires true ds = 0)
    ∧ (∀ (ds : List ℚ) (flag : Bool) (i j : ℕ), i < j →
        fireAt flag ds i = true → fireAt flag ds j = true →
        ∃ k, i < k ∧ k ≤ j ∧ TRIGGER_THRESHOLD ≤ ds.getD k 0)
    ∧ fireList false [3/100, 3/100, 8/100, 3/100] = [true, false, false, true]
    ∧ countFires false [3/100, 3/100, 8/100, 3/100] = 2 := by
  refine ⟨?_, ?_, ?_, fire_needs_release, by decide, by decide⟩
  · intro flag d
    unfold triggerStep
    by_cases h1 : d < TRIGGER_THRESHOLD
    · cases flag <;> simp [h1, not_le.2 h1]
    · cases flag <;> simp [h1, le_of_not_lt h1]
  · intro ds hne hsub
    cases ds with
    | nil => exact absurd rfl hne
    | cons d ds =>
      have hd : d < TRIGGER_THRESHOLD := hsub d (List.mem_cons_self d ds)
      have hheld := fireList_held ds (fun x hx => hsub x (List.mem_cons_of_mem d hx))
      simp [countFires, fireList, triggerStep, hd, hheld, List.count_replicate]
  · intro ds hsub
    simp [countFires, fireList_held ds hsub, List.count_replicate]

/-- C3 witness: a single sub-threshold tick from a clear flag fires exactly
once. -/
theorem C3_trigger_edge_witness : countFires false [3/100] = 1 :=
  C3_trigger_edge.2.1 [3/100] (by decide) (by decide)

/-! ### Floating-text lifecycle lemmas -/

/-- After k+1 frames, every surviving vfx item descends from an original
item with exactly (k+1) * 0.025 of life spent, and its life is still
strictly positive. -/
lemma stepVFX_iter_life (k : ℕ) :
    ∀ (l : List FloatingText) (v : FloatingText), v ∈ stepVFX^[k + 1] l →
      ∃ u ∈ l, v.life = u.life - (k + 1) * (1 / 40) ∧ 0 < v.life := by
  induction k with
  | zero =>
    intro l v hv
    simp only [zero_add, Function.iterate_one] at hv
    unfold stepVFX at hv
    rw [List.mem_filter] at hv
    obtain ⟨hmap, hpos⟩ := hv
    obtain ⟨u, hu, rfl⟩ := List.mem_map.1 hmap
    refine ⟨u, hu, ?_, by simpa using hpos⟩
    simp only [ageVFX]
    push_cast
    ring
  | succ k ih =>
    intro l v hv
    rw [Function.iterate_succ_apply] at hv
    obtain ⟨u1, hu1, hlife, hpos⟩ := ih (stepVFX l) v hv
    unfold stepVFX at hu1
    rw [List.mem_filter] at hu1
    obtain ⟨hmap, _⟩ := hu1
    obtain ⟨u, hu, rfl⟩ := List.mem_map.1 hmap
    refine ⟨u, hu, ?_, hpos⟩
    rw [hlife]
    simp only [ageVFX]
    push_cast
    ring

/-- C7.  Each frame ages every vfx item by exactly life -= 0.025 and
y += 0.04; an aged item is kept exactly when its life is still strictly
positive (dropped exactly when it falls to or below 0); after k+1 frames
a surviving item has spent exactly (k+1) * 0.025 of life and its life is
strictly decreasing frame over frame; and any collection whose items all
start with life at most 1.0 is empty after 40 = ceil(1.0 / 0.025)
frames. -/
theorem C7_vfx_lifecycle :
    (∀ (l : List FloatingText) (v : FloatingText), v ∈ stepVFX l →
      ∃ u ∈ l, v = ageVFX u ∧ v.life = u.life - 1/40
        ∧ v.pos.y = u.pos.y + 1/25 ∧ v.life < u.life)
    ∧ (∀ (l : List FloatingText) (u : FloatingText), u ∈ l →
        (0 < u.life - 1/40 ↔ ageVFX u ∈ stepVFX l))
    ∧ (∀ (k : ℕ) (l : List FloatingText) (v : FloatingText),
        v ∈ stepVFX^[k + 1] l →
        ∃ u ∈ l, v.life = u.life - (k + 1) * (1 / 40) ∧ 0 < v.life)
    ∧ (∀ l : List FloatingText, (∀ v ∈ l, v.life ≤ 1) →
        stepVFX^[40] l = []) := by
  refine ⟨?_, ?_, stepVFX_iter_life, ?_⟩
  · intro l v hv
    unfold stepVFX at hv
    rw [List.mem_filter] at hv
    obtain ⟨hmap, hpos⟩ := hv
    obtain ⟨u, hu, rfl⟩ := List.mem_map.1 hmap
    refine ⟨u, hu, rfl, by simp [ageVFX], by simp [ageVFX], ?_⟩
    simp only [ageVFX]
    linarith
  · intro l u hu
    constructor
    · intro hpos
      unfold stepVFX
      rw [List.mem_filter]
      exact ⟨List.mem_map_of_mem ageVFX hu, by simpa [ageVFX] using hpos⟩
    · intro hmem
      unfold stepVFX at hmem
      rw [List.mem_filter] at hmem
      simpa [ageVFX] using hmem.2
  · intro l hb
    rw [List.eq_nil_iff_forall_not_mem]
    intro v hv
    obtain ⟨u, hu, hlife, hpos⟩ := stepVFX_iter_life 39 l v hv
    have hub := hb u hu
    rw [hlife] at hpos
    push_cast at hpos
    linarith

/-- C7 witness: one item created with life 1.0 is gone after 40 frames. -/
theorem C7_vfx_lifecycle_witness : stepVFX^[40] [⟨⟨0, 0, 0⟩, 1⟩] = [] :=
  C7_vfx_lifecycle.2.2.2 [⟨⟨0, 0, 0⟩, 1⟩] (by decide)

/-- C6.  The Aim-Assist Engine iterates the target list in order: a dying
target is skipped with no effect; a live target whose direction from the
ray origin makes an angle with the CURRENT (already possibly adjusted)
direction strictly below assistThreshold (= AIM_ASSIST_RADIUS * (pi/180)
* 6) pulls the direction toward it by a lerp of fraction
AIM_ASSIST_STRENGTH = 0.4 and sets the engaged flag; a live target at or
beyond the threshold has no effect; and with two qualifying targets the
pulls compound, the second lerp acting on the output of the first (no
single-nearest-target selection). -/
theorem C6_aim_assist_compound :
    (∀ (angleOf : Vec3 → Vec3 → ℚ) (piRat : ℚ) (unitv : Vec3 → Vec3)
        (origin d : Vec3) (f : Bool) (e : Enemy) (rest : List Enemy),
      e.isDying = true →
      aimAssistGo angleOf piRat unitv origin d f (e :: rest)
        = aimAssistGo angleOf piRat unitv origin d f rest)
    ∧ (∀ (angleOf : Vec3 → Vec3 → ℚ) (piRat : ℚ) (unitv : Vec3 → Vec3)
        (origin d : Vec3) (f : Bool) (e : Enemy) (rest : List Enemy),
      e.isDying = false →
      angleOf d (unitv (e.pos.sub origin)) < assistThreshold piRat →
      aimAssistGo angleOf piRat unitv origin d f (e :: rest)
        = aimAssistGo angleOf piRat unitv origin
            (d.lerp (unitv (e.pos.sub origin)) AIM_ASSIST_STRENGTH) true rest)
    ∧ (∀ (angleOf : Vec3 → Vec3 → ℚ) (piRat : ℚ) (unitv : Vec3 → Vec3)
        (origin d : Vec3) (f : Bool) (e : Enemy) (rest : List Enemy),
      e.isDying = false →
      ¬ angleOf d (unitv (e.pos.sub origin)) < assistThreshold piRat →
      aimAssistGo angleOf piRat unitv origin d f (e :: rest)
        = aimAssistGo angleOf piRat unitv origin d f rest)
    ∧ (∀ (angleOf : Vec3 → Vec3 → ℚ) (piRat : ℚ) (unitv : Vec3 → Vec3)
        (origin d0 : Vec3) (e1 e2 : Enemy),
      e1.isDying = false → e2.isDying = false →
      angleOf d0 (unitv (e1.pos.sub origin)) < assistThreshold piRat →
      angleOf (d0.lerp (unitv (e1.pos.sub origin)) AIM_ASSIST_STRENGTH)
          (unitv (e2.pos.sub origin)) < assistThreshold piRat →
      aimAssistRun angleOf piRat unitv origin d0 [e1, e2]
        = ((d0.lerp (unitv (e1.pos.sub origin)) AIM_ASSIST_STRENGTH).lerp
            (unitv (e2.pos.sub origin)) AIM_ASSIST_STRENGTH, true)) := by
  refine ⟨?_, ?_, ?_, ?_⟩
  · intro angleOf piRat unitv origin d f e rest h
    simp [aimAssistGo, h]
  · intro angleOf piRat unitv origin d f e rest h hlt
    simp [aimAssistGo, h, hlt]
  · intro angleOf piRat unitv origin d f e rest h hlt
    simp [aimAssistGo, h, hlt]
  · intro angleOf piRat unitv origin d0 e1 e2 h1 h2 hlt1 hlt2
    simp [aimAssistRun, aimAssistGo, h1, h2, hlt1, hlt2]

/-- C6 witness: two live targets at (1,0,0) and (0,1,0), both inside the
assist cone of a constant-zero angle oracle, pull the direction
(0,0,-1) to lerp(lerp((0,0,-1),(1,0,0),0.4),(0,1,0),0.4)
= (6/25, 2/5, -9/25), with the engaged flag set. -/
theorem C6_aim_assist_compound_witness :
    aimAssistRun (fun _ _ => 0) 180 (fun v => v) ⟨0, 0, 0⟩ ⟨0, 0, -1⟩
      [⟨0, ⟨1, 0, 0⟩, ⟨0, 0, 0⟩, 0, 0, 1, false, 100, .normal⟩,
       ⟨1, ⟨0, 1, 0⟩, ⟨0, 0, 0⟩, 0, 0, 1, false, 100, .normal⟩]
      = (⟨6/25, 2/5, -9/25⟩, true) :=
  (C6_aim_assist_compound.2.2.2 (fun _ _ => 0) 180 (fun v => v)
    ⟨0, 0, 0⟩ ⟨0, 0, -1⟩
    ⟨0, ⟨1, 0, 0⟩, ⟨0, 0, 0⟩, 0, 0, 1, false, 100, .normal⟩
    ⟨1, ⟨0, 1, 0⟩, ⟨0, 0, 0⟩, 0, 0, 1, false, 100, .normal⟩
    rfl rfl (by decide) (by decide)).trans (by decide)

/-- C8, counterexample.  An exception tick does NOT leave the state
unchanged: with no hand previously detected, a malformed-landmark tick
(hand list nonempty, landmark access throws after the hand-detected
update was already issued) flips handDetected to true, so the post-tick
state differs from the pre-tick state. -/
theorem C8_counterexample :
    onResultsTick angle0 0 unit0 int0 (initSim gen0) .malformed ≠ initSim gen0
    ∧ (onResultsTick angle0 0 unit0 int0 (initSim gen0)
        .malformed).g.handDetected = true
    ∧ (initSim gen0).g.handDetected = false := by
  decide

/-- C8, amended.  On a malformed-landmark tick the exception is caught and
score, combo, trigger flag, targets, vfx, pending removals and the id
counter are all unchanged, but handDetected is set to true (the
hands-present update precedes the failing landmark read); and after any
tick, handDetected is false exactly when the tick carried an explicit
zero-hands result — never because of an exception. -/
theorem C8_exception_effects (angleOf : Vec3 → Vec3 → ℚ) (piRat : ℚ)
    (unitv : Vec3 → Vec3) (intersect : Enemy → Bool) (s : Sim) :
    ((onResultsTick angleOf piRat unitv intersect s .malformed).g.score = s.g.score
    ∧ (onResultsTick angleOf piRat unitv intersect s .malformed).g.combo = s.g.combo
    ∧ (onResultsTick angleOf piRat unitv intersect s .malformed).trig = s.trig
    ∧ (onResultsTick angleOf piRat unitv intersect s .malformed).enemies = s.enemies
    ∧ (onResultsTick angleOf piRat unitv intersect s .malformed).vfx = s.vfx
    ∧ (onResultsTick angleOf piRat unitv intersect s .malformed).pending = s.pending
    ∧ (onResultsTick angleOf piRat unitv intersect s .malformed).nextId = s.nextId
    ∧ (onResultsTick angleOf piRat unitv intersect s .malformed).g.handDetected = true)
    ∧ (∀ inp : DetectInput,
        ((onResultsTick angleOf piRat unitv intersect s inp).g.handDetected = false
          ↔ inp = DetectInput.noHands)) := by
  constructor
  · exact ⟨rfl, rfl, rfl, rfl, rfl, rfl, rfl, rfl⟩
  · intro inp
    cases inp with
    | noHands => simp [onResultsTick]
    | malformed => simp [onResultsTick]
    | hands t b i =>
      simp only [onResultsTick]
      split_ifs with h1 h2
      · simp
      · cases hfi : findIndexL intersect s.enemies <;> simp [handleShoot, hfi]
      · simp

/-- C10.  The vector from which the raw aim direction is normalized always
has z-component exactly -0.5, so its squared norm is at least 1/4 and in
particular nonzero — even when the index-tip and index-base landmarks
coincide; normalizing it (dividing by any positive n with n * n equal to
the squared norm) yields a unit vector whose z-component is strictly
negative, pointing into the scene. -/
theorem C10_aim_direction_welldefined (indexTip indexBase : Pt2) :
    (rawAimVec indexTip indexBase).z = -(1/2)
    ∧ 1/4 ≤ lenSqQ (rawAimVec indexTip indexBase)
    ∧ lenSqQ (rawAimVec indexTip indexBase) ≠ 0
    ∧ ∀ n : ℚ, 0 < n → n * n = lenSqQ (rawAimVec indexTip indexBase) →
        lenSqQ (Vec3.scale (1/n) (rawAimVec indexTip indexBase)) = 1
        ∧ (Vec3.scale (1/n) (rawAimVec indexTip indexBase)).z < 0 := by
  have hq : 1/4 ≤ lenSqQ (rawAimVec indexTip indexBase) := by
    simp only [rawAimVec, lenSqQ]
    nlinarith [sq_nonneg (indexTip.x - indexBase.x),
      sq_nonneg (-(indexTip.y - indexBase.y))]
  refine ⟨rfl, hq, by linarith, ?_⟩
  intro n hn hnn
  have hn0 : n ≠ 0 := ne_of_gt hn
  constructor
  · have hexp : lenSqQ (Vec3.scale (1/n) (rawAimVec indexTip indexBase))
        = (1/n) * (1/n) * lenSqQ (rawAimVec indexTip indexBase) := by
      simp only [Vec3.scale, lenSqQ]
      ring
    rw [hexp, ← hnn]
    field_simp
  · show (1/n) * (rawAimVec indexTip indexBase).z < 0
    have hz : (rawAimVec indexTip indexBase).z = -(1/2) := rfl
    rw [hz]
    have h1n : 0 < 1/n := by positivity
    nlinarith

/-- C10 witness: with coinciding landmarks the vector is (0, 0, -1/2) of
squared norm 1/4 = (1/2) * (1/2); dividing by 1/2 gives a unit vector
with negative z. -/
theorem C10_aim_direction_welldefined_witness :
    lenSqQ (Vec3.scale (1/(1/2 : ℚ)) (rawAimVec ⟨0, 0⟩ ⟨0, 0⟩)) = 1
    ∧ (Vec3.scale (1/(1/2 : ℚ)) (rawAimVec ⟨0, 0⟩ ⟨0, 0⟩)).z < 0 :=
  (C10_aim_direction_welldefined ⟨0, 0⟩ ⟨0, 0⟩).2.2.2 (1/2)
    (by decide) (by decide)
